import Mathlib

/-!
Verification of the ellipsoid-method cutting-plane engine (ellalgo).

The definitions below are a shallow embedding of the Python sources:
`ell_calc.py` (the scalar kernel `EllCalc`), `ell.py` (the `Ell` search
space), `ell_stable.py` (the LDLᵀ-factored `EllStable` search space) and
`cutting_plane.py` (the driver loops and `BSearchAdaptor`).  Python floats
are modelled by real numbers, `math.sqrt` by `Real.sqrt`, and mutation by
explicit state passing.  Array indices of `EllStable` are natural numbers,
matching the `range`-based loops of the source.
-/

namespace EllAlgo

/-- Modelled from the spec: `ell_config.py` is not present in the sources;
the specification (§3.1) enumerates the cut outcomes `Success`, `NoSoln`
and `NoEffect`. -/
inductive CutStatus where
  | Success
  | NoSoln
  | NoEffect
deriving DecidableEq

/-- Modelled from the spec: `ell_config.py` is not present in the sources;
the specification (§3.3) records the driver options `max_iters` (iteration
budget) and `tol` (lower bound on the volume proxy `tsq`). -/
structure Options where
  max_iters : ℕ
  tol : ℝ

/-- The `beta` argument of a cut: either a scalar (single cut) or an
ordered pair (parallel cut).  The Python sources accept a float or a
sequence; sequences of length ≥ 2 are read through their first two
entries, which the pair constructor records. -/
inductive CutChoice where
  | single (b : ℝ)
  | pair (b0 b1 : ℝ)

/-- Result quadruple of every kernel routine: status and the update
scalars (rho, sigma, delta). -/
abbrev CalcResult := CutStatus × ℝ × ℝ × ℝ

/-- The `EllCalc` kernel state: `_n_f = float(n)` set by `__init__`, plus
the `use_parallel_cut` class attribute (default `True`).  The derived
constants `_half_n`, `_cst0` … `_cst3` are pre-computed in `__init__` from
`n_f` alone; they are modelled as the functions below. -/
structure EllCalc where
  n_f : ℝ
  use_parallel_cut : Bool

/-- Constructor `EllCalc(n)`. -/
def EllCalc.ofDim (n : ℕ) : EllCalc := ⟨(n : ℝ), true⟩

/-- `self._half_n = self._n_f / 2.0` -/
noncomputable def EllCalc.half_n (c : EllCalc) : ℝ := c.n_f / 2

/-- `self._cst0 = 1.0 / (self._n_f + 1.0)` -/
noncomputable def EllCalc.cst0 (c : EllCalc) : ℝ := 1 / (c.n_f + 1)

/-- `self._cst1 = self._n_f ** 2 / (self._n_f ** 2 - 1.0)` -/
noncomputable def EllCalc.cst1 (c : EllCalc) : ℝ := c.n_f ^ 2 / (c.n_f ^ 2 - 1)

/-- `self._cst2 = 2.0 * self._cst0` -/
noncomputable def EllCalc.cst2 (c : EllCalc) : ℝ := 2 * c.cst0

/-- `self._cst3 = self._n_f * self._cst0` -/
noncomputable def EllCalc.cst3 (c : EllCalc) : ℝ := c.n_f * c.cst0

/-- `EllCalc.calc_dc_core(beta, tau, gamma)`: unconditional deep-cut
scalars `rho = cst0·gamma`, `sigma = cst2·gamma/(tau+beta)`,
`delta = cst1·(1 − (beta/tau)²)`, status `Success`. -/
noncomputable def EllCalc.calc_dc_core (c : EllCalc) (beta tau gamma : ℝ) : CalcResult :=
  (CutStatus.Success, c.cst0 * gamma, c.cst2 * gamma / (tau + beta),
    c.cst1 * (1 - (beta / tau) ^ 2))

/-- `EllCalc.calc_dc(beta, tsq)`: deep cut.  The source asserts
`beta >= 0.0` (a caller precondition, carried as a hypothesis by the
theorems); returns `NoSoln` when `tsq < beta²`, else the core values at
`tau = sqrt(tsq)`, `gamma = tau + n·beta`. -/
noncomputable def EllCalc.calc_dc (c : EllCalc) (beta tsq : ℝ) : CalcResult :=
  let bsq := beta * beta
  if tsq < bsq then (CutStatus.NoSoln, 0, 0, 0)
  else
    let tau := Real.sqrt tsq
    c.calc_dc_core beta tau (tau + c.n_f * beta)

/-- `EllCalc.calc_cc(tsq)`: central cut, always `Success` with
`rho = cst0·sqrt(tsq)`, `sigma = cst2`, `delta = cst1`. -/
noncomputable def EllCalc.calc_cc (c : EllCalc) (tsq : ℝ) : CalcResult :=
  (CutStatus.Success, c.cst0 * Real.sqrt tsq, c.cst2, c.cst1)

/-- `EllCalc.calc_ll_core(b0, b1, b1sq, b0b1, tsq)`: parallel deep-cut
core. -/
noncomputable def EllCalc.calc_ll_core (c : EllCalc) (b0 b1 b1sq b0b1 tsq : ℝ) : CalcResult :=
  let b0sq := b0 * b0
  let t0 := tsq - b0sq
  let t1 := tsq - b1sq
  let xi := Real.sqrt (t0 * t1 + (c.half_n * (b1sq - b0sq)) ^ 2)
  let bsumsq := b0sq + 2 * b0b1 + b1sq
  let sigma := c.cst3 + c.cst2 * (tsq + b0b1 - xi) / bsumsq
  let rho := sigma * (b0 + b1) / 2
  let delta := c.cst1 * ((t0 + t1) / 2 + xi / c.n_f) / tsq
  (CutStatus.Success, rho, sigma, delta)

/-- `EllCalc.calc_ll(b0, b1, tsq)`: parallel deep cut.  `NoSoln` when
`b1 < b0`; falls back to the single deep cut when the outer hyperplane
misses the ellipsoid (`b1 > 0` and `tsq < b1²`); else the shared core. -/
noncomputable def EllCalc.calc_ll (c : EllCalc) (b0 b1 tsq : ℝ) : CalcResult :=
  if b1 < b0 then (CutStatus.NoSoln, 0, 0, 0)
  else
    let b1sq := b1 * b1
    if 0 < b1 ∧ tsq < b1sq then c.calc_dc b0 tsq
    else c.calc_ll_core b0 b1 b1sq (b0 * b1) tsq

/-- `EllCalc.calc_ll_cc(b1, tsq)`: parallel central cut. -/
noncomputable def EllCalc.calc_ll_cc (c : EllCalc) (b1 tsq : ℝ) : CalcResult :=
  if b1 < 0 then (CutStatus.NoSoln, 0, 0, 0)
  else
    let b1sq := b1 * b1
    if tsq < b1sq ∨ ¬c.use_parallel_cut then c.calc_cc tsq
    else
      let a1sq := b1sq / tsq
      let xi := Real.sqrt (1 - a1sq + (c.half_n * a1sq) ^ 2)
      let sigma := c.cst3 + c.cst2 * (1 - xi) / a1sq
      let rho := sigma * b1 / 2
      let delta := c.cst1 * (1 - a1sq / 2 + xi / c.n_f)
      (CutStatus.Success, rho, sigma, delta)

/-- `EllCalc.calc_dc_q(beta, tsq)`: discrete deep cut.  `NoSoln` when
`tau < beta`; `NoEffect` when `gamma = tau + n·beta ≤ 0`; else the shared
core. -/
noncomputable def EllCalc.calc_dc_q (c : EllCalc) (beta tsq : ℝ) : CalcResult :=
  let tau := Real.sqrt tsq
  if tau < beta then (CutStatus.NoSoln, 0, 0, 0)
  else
    let gamma := tau + c.n_f * beta
    if gamma ≤ 0 then (CutStatus.NoEffect, 0, 0, 0)
    else c.calc_dc_core beta tau gamma

/-- `EllCalc.calc_ll_q(b0, b1, tsq)`: discrete parallel deep cut.
Additionally returns `NoEffect` when `n·b0·b1 < −tsq`. -/
noncomputable def EllCalc.calc_ll_q (c : EllCalc) (b0 b1 tsq : ℝ) : CalcResult :=
  if b1 < b0 then (CutStatus.NoSoln, 0, 0, 0)
  else
    let b1sq := b1 * b1
    if 0 < b1 ∧ tsq < b1sq then c.calc_dc_q b0 tsq
    else
      let b0b1 := b0 * b1
      if c.n_f * b0b1 < -tsq then (CutStatus.NoEffect, 0, 0, 0)
      else c.calc_ll_core b0 b1 b1sq b0b1 tsq

/-- `EllCalc.calc_single_or_ll(beta, tsq)`: deep-cut dispatcher.  A scalar
`beta` goes to `calc_dc`; a pair goes to `calc_ll` unless parallel cuts
are disabled, in which case its first entry goes to `calc_dc`. -/
noncomputable def EllCalc.calc_single_or_ll (c : EllCalc) (beta : CutChoice) (tsq : ℝ) :
    CalcResult :=
  match beta with
  | CutChoice.single b => c.calc_dc b tsq
  | CutChoice.pair b0 b1 => if c.use_parallel_cut then c.calc_ll b0 b1 tsq else c.calc_dc b0 tsq

/-- `EllCalc.calc_single_or_ll_cc(beta, tsq)`: central-cut dispatcher.  A
scalar `beta` (or a pair with parallel cuts disabled) goes to `calc_cc`,
ignoring the value of `beta`; a pair goes to `calc_ll_cc` on its second
entry. -/
noncomputable def EllCalc.calc_single_or_ll_cc (c : EllCalc) (beta : CutChoice) (tsq : ℝ) :
    CalcResult :=
  match beta with
  | CutChoice.single _ => c.calc_cc tsq
  | CutChoice.pair _ b1 => if c.use_parallel_cut then c.calc_ll_cc b1 tsq else c.calc_cc tsq

/-- `EllCalc.calc_single_or_ll_q(beta, tsq)`: discrete dispatcher. -/
noncomputable def EllCalc.calc_single_or_ll_q (c : EllCalc) (beta : CutChoice) (tsq : ℝ) :
    CalcResult :=
  match beta with
  | CutChoice.single b => c.calc_dc_q b tsq
  | CutChoice.pair b0 b1 =>
      if c.use_parallel_cut then c.calc_ll_q b0 b1 tsq else c.calc_dc_q b0 tsq

/-! ## The `Ell` search space (`ell.py`)

The shape matrix `_mq` is a dense matrix over `Fin n`, the center `_xc` a
vector; `update_dc`, `update_cc` and `update_q` all route through
`_update_core` with the corresponding kernel dispatcher. -/

/-- State of `Ell`: shape matrix `mq`, center `xc`, scale `kappa`, cached
volume proxy `tsq`, the kernel `helper`, and the `no_defer_trick` class
attribute (default `False`). -/
structure Ell (n : ℕ) where
  mq : Matrix (Fin n) (Fin n) ℝ
  xc : Fin n → ℝ
  kappa : ℝ
  tsq : ℝ
  helper : EllCalc
  no_defer_trick : Bool

/-- `Ell._update_core(cut, cut_strategy)`: computes `grad_t = M·g`,
`omega = g·grad_t`, stores `tsq = kappa·omega`, dispatches to the
strategy, returns early on non-`Success`, and otherwise applies the
center shift, the rank-one downdate of `M`, the `kappa` scaling and the
optional defer-trick flush. -/
noncomputable def Ell.update_core {n : ℕ} (E : Ell n) (cut : (Fin n → ℝ) × CutChoice)
    (strategy : CutChoice → ℝ → CalcResult) : CutStatus × Ell n :=
  let grad := cut.1
  let grad_t := E.mq.mulVec grad
  let omg := Matrix.dotProduct grad grad_t
  let tsq := E.kappa * omg
  let res := strategy cut.2 tsq
  let status := res.1
  let rho := res.2.1
  let sigma := res.2.2.1
  let delta := res.2.2.2
  if status ≠ CutStatus.Success then (status, { E with tsq := tsq })
  else
    let xc' := fun i => E.xc i - (rho / omg) * grad_t i
    let mq' := E.mq - (sigma / omg) • Matrix.vecMulVec grad_t grad_t
    let kappa' := E.kappa * delta
    if E.no_defer_trick then
      (status, { E with mq := kappa' • mq', xc := xc', kappa := 1, tsq := tsq })
    else
      (status, { E with mq := mq', xc := xc', kappa := kappa', tsq := tsq })

/-- `Ell.update_dc(cut)`: `_update_core` with `calc_single_or_ll`. -/
noncomputable def Ell.update_dc {n : ℕ} (E : Ell n) (cut : (Fin n → ℝ) × CutChoice) :
    CutStatus × Ell n :=
  E.update_core cut (fun b t => E.helper.calc_single_or_ll b t)

/-- `Ell.update_cc(cut)`: `_update_core` with `calc_single_or_ll_cc`. -/
noncomputable def Ell.update_cc {n : ℕ} (E : Ell n) (cut : (Fin n → ℝ) × CutChoice) :
    CutStatus × Ell n :=
  E.update_core cut (fun b t => E.helper.calc_single_or_ll_cc b t)

/-- `Ell.update_q(cut)`: `_update_core` with `calc_single_or_ll_q`. -/
noncomputable def Ell.update_q {n : ℕ} (E : Ell n) (cut : (Fin n → ℝ) × CutChoice) :
    CutStatus × Ell n :=
  E.update_core cut (fun b t => E.helper.calc_single_or_ll_q b t)

/-! ## The `EllStable` search space (`ell_stable.py`)

`EllStable` keeps an LDLᵀ-style factorization inside one square array:
the strict lower triangle stores L, the diagonal stores D⁻¹, and the
strict upper triangle is scratch storage written during the forward
solve.  The `range`-based loops of the source are modelled as left folds
over `List.range`, with the array as a total function on `ℕ × ℕ`
(entries outside `[0, n)²` are never touched by the loops). -/

/-- Fold-step update of one matrix entry. -/
def mset (m : ℕ → ℕ → ℝ) (r c : ℕ) (v : ℝ) : ℕ → ℕ → ℝ :=
  fun a b => if a = r ∧ b = c then v else m a b

/-- Forward solve of `EllStable._update_core`:
`for j in range(n-1): for i in range(j+1, n):
   mq[j, i] = mq[i, j] * invLg[j]; invLg[i] -= mq[j, i]`.
Returns the matrix (with the scratch upper triangle written) and
`invLg = inv(L)·g`. -/
noncomputable def stableForward (n : ℕ) (m : ℕ → ℕ → ℝ) (g : ℕ → ℝ) :
    (ℕ → ℕ → ℝ) × (ℕ → ℝ) :=
  (List.range n).foldl
    (fun st j =>
      (List.range n).foldl
        (fun st i =>
          if j < i then
            let v := st.1 i j * st.2 j
            (mset st.1 j i v, Function.update st.2 i (st.2 i - v))
          else st)
        st)
    (m, g)

/-- Back solve of `EllStable._update_core`:
`for i in range(n-1, 0, -1): for j in range(i, n):
   g_t[i-1] -= mq[j, i-1] * g_t[j]`. -/
noncomputable def stableBack (n : ℕ) (m : ℕ → ℕ → ℝ) (w : ℕ → ℝ) : ℕ → ℝ :=
  ((List.range n).reverse).foldl
    (fun gt i =>
      if 1 ≤ i then
        (List.range n).foldl
          (fun gt j =>
            if i ≤ j then Function.update gt (i - 1) (gt (i - 1) - m j (i - 1) * gt j)
            else gt)
          gt
      else gt)
    w

/-- Rank-one downdate of the factorization (Gill–Murray–Wright recurrence)
in `EllStable._update_core`: carries `(mq, v, oldt)` over the columns;
for each column `j`: `p = v[j]; temp = invDinvLg[j]; newt = oldt + p*temp;
beta2 = temp/newt; mq[j,j] *= oldt/newt;
for k in range(j+1, n): v[k] -= mq[j,k]; mq[k,j] += beta2 * v[k]`. -/
noncomputable def stableRankOne (n : ℕ) (m : ℕ → ℕ → ℝ) (g w : ℕ → ℝ) (t0 : ℝ) :
    ℕ → ℕ → ℝ :=
  ((List.range n).foldl
    (fun st j =>
      let p := st.2.1 j
      let temp := w j
      let newt := st.2.2 + p * temp
      let beta2 := temp / newt
      let m1 := mset st.1 j j (st.1 j j * (st.2.2 / newt))
      let inner := (List.range n).foldl
        (fun st2 k =>
          if j < k then
            let v' := Function.update st2.2 k (st2.2 k - st2.1 j k)
            (mset st2.1 k j (st2.1 k j + beta2 * v' k), v')
          else st2)
        (m1, st.2.1)
      (inner.1, inner.2, newt))
    (m, g, t0)).1

/-- State of `EllStable`: array `mq` (L, D⁻¹ and scratch as described
above), center `xc`, scale `kappa`, cached `tsq`, dimension `ndim`, the
kernel `helper` and the `no_defer_trick` attribute. -/
structure EllStable where
  ndim : ℕ
  mq : ℕ → ℕ → ℝ
  xc : ℕ → ℝ
  kappa : ℝ
  tsq : ℝ
  helper : EllCalc
  no_defer_trick : Bool

/-- The `omega = sum(invLg * invDinvLg)` value computed by
`EllStable._update_core` before dispatching, where
`invDinvLg[i] = invLg[i] * mq[i, i]` on the forward-solved array. -/
noncomputable def stableOmega (n : ℕ) (m : ℕ → ℕ → ℝ) (g : ℕ → ℝ) : ℝ :=
  let fs := stableForward n m g
  Finset.sum (Finset.range n) (fun i => fs.2 i * (fs.2 i * fs.1 i i))

/-- `EllStable._update_core(cut, cut_strategy)`: forward solve, scale by
`D⁻¹`, form `omega`, store `tsq = kappa·omega`, dispatch; on
non-`Success` return the status (the scratch upper triangle and `tsq`
already written); else back solve, shift the center, rank-one downdate
with `mu = sigma/(1-sigma)`, scale `kappa` by `delta` and optionally
flush the defer trick. -/
noncomputable def EllStable.update_core (E : EllStable) (cut : (ℕ → ℝ) × CutChoice)
    (strategy : CutChoice → ℝ → CalcResult) : CutStatus × EllStable :=
  let g := cut.1
  let fs := stableForward E.ndim E.mq g
  let mq1 := fs.1
  let invLg := fs.2
  let invDinvLg := fun i => invLg i * mq1 i i
  let omg := Finset.sum (Finset.range E.ndim) (fun i => invLg i * invDinvLg i)
  let tsq := E.kappa * omg
  let res := strategy cut.2 tsq
  let status := res.1
  let rho := res.2.1
  let sigma := res.2.2.1
  let delta := res.2.2.2
  if status ≠ CutStatus.Success then (status, { E with mq := mq1, tsq := tsq })
  else
    let g_t := stableBack E.ndim mq1 invDinvLg
    let xc' := fun i => E.xc i - rho / omg * g_t i
    let mu := sigma / (1 - sigma)
    let mq2 := stableRankOne E.ndim mq1 g invDinvLg (omg / mu)
    let kappa' := E.kappa * delta
    if E.no_defer_trick then
      (status, { E with mq := fun a b => kappa' * mq2 a b, xc := xc', kappa := 1, tsq := tsq })
    else
      (status, { E with mq := mq2, xc := xc', kappa := kappa', tsq := tsq })

/-- `EllStable.update_dc(cut)`. -/
noncomputable def EllStable.update_dc (E : EllStable) (cut : (ℕ → ℝ) × CutChoice) :
    CutStatus × EllStable :=
  E.update_core cut (fun b t => E.helper.calc_single_or_ll b t)

/-- `EllStable.update_cc(cut)`. -/
noncomputable def EllStable.update_cc (E : EllStable) (cut : (ℕ → ℝ) × CutChoice) :
    CutStatus × EllStable :=
  E.update_core cut (fun b t => E.helper.calc_single_or_ll_cc b t)

/-- `EllStable.update_q(cut)`. -/
noncomputable def EllStable.update_q (E : EllStable) (cut : (ℕ → ℝ) × CutChoice) :
    CutStatus × EllStable :=
  E.update_core cut (fun b t => E.helper.calc_single_or_ll_q b t)

/-! ## Driver loops (`cutting_plane.py`)

The drivers are generic over a search-space state type `S`, a point type
`V` and a cut type `C`; a record of operations plays the role of the
abstract `SearchSpace` interface, and oracles are passed as functions.
Mutation of the search space becomes explicit state passing. -/

/-- The `SearchSpace` capabilities consumed by `cutting_plane_feas`:
`xc()`, `tsq()` and `update_dc(cut)` (the latter returning the status and
the updated state). -/
structure SearchSpaceOps (S V C : Type) where
  xc : S → V
  tsq : S → ℝ
  update_dc : S → C → CutStatus × S

/-- The `SearchSpace2` capabilities: additionally `set_xc`. -/
structure SearchSpace2Ops (S V C : Type) extends SearchSpaceOps S V C where
  set_xc : S → V → S

/-- The `OracleFeas2` capabilities used by `BSearchAdaptor`: an oracle
state `O` with `assess_feas` and the parameter update `update(tea)`. -/
structure OracleFeas2Ops (O V C : Type) where
  assess_feas : O → V → Option C
  update : O → ℝ → O

/-- The `for niter in range(max_iters)` loop of `cutting_plane_feas`,
by fuel (remaining iterations); the returned count is the number of the
iteration at which the loop exited (`max_iters` when the budget is
exhausted). -/
noncomputable def cutting_plane_feas_loop {S V C : Type} (assess : V → Option C)
    (sp : SearchSpaceOps S V C) (tol : ℝ) : ℕ → S → Option V × ℕ
  | 0, _ => (none, 0)
  | fuel + 1, s =>
    match assess (sp.xc s) with
    | none => (some (sp.xc s), 0)
    | some cut =>
      let r := sp.update_dc s cut
      if r.1 ≠ CutStatus.Success ∨ sp.tsq r.2 < tol then (none, 0)
      else
        let p := cutting_plane_feas_loop assess sp tol fuel r.2
        (p.1, p.2 + 1)

/-- `cutting_plane_feas(omega, space, options)`. -/
noncomputable def cutting_plane_feas {S V C : Type} (assess : V → Option C)
    (sp : SearchSpaceOps S V C) (opts : Options) (s : S) : Option V × ℕ :=
  cutting_plane_feas_loop assess sp opts.tol opts.max_iters s

/-- One iteration's effect on the search-space state inside
`cutting_plane_feas`: unchanged when the oracle certifies feasibility,
otherwise the state after `update_dc`. -/
noncomputable def feasStep {S V C : Type} (assess : V → Option C)
    (sp : SearchSpaceOps S V C) (s : S) : S :=
  match assess (sp.xc s) with
  | none => s
  | some cut => (sp.update_dc s cut).2

/-- The loop exits with a feasible point at state `s`. -/
def feasFound {S V C : Type} (assess : V → Option C) (sp : SearchSpaceOps S V C)
    (s : S) : Prop :=
  assess (sp.xc s) = none

/-- The loop exits with `None` at state `s`: the oracle returned a cut and
either the update status was not `Success` or the post-update `tsq` fell
below the tolerance. -/
def feasHalt {S V C : Type} (assess : V → Option C) (sp : SearchSpaceOps S V C)
    (tol : ℝ) (s : S) : Prop :=
  ∃ cut, assess (sp.xc s) = some cut ∧
    ((sp.update_dc s cut).1 ≠ CutStatus.Success ∨ sp.tsq (sp.update_dc s cut).2 < tol)

/-- The `bsearch` loop, by fuel; `toT` models the `T = type(upper)` cast
applied to the midpoint (`float` keeps it, `int` truncates). -/
noncomputable def bsearch_loop (assess : ℝ → Bool) (toT : ℝ → ℝ) (tol : ℝ) :
    ℕ → ℝ → ℝ → ℝ × ℕ
  | 0, _, upper => (upper, 0)
  | fuel + 1, lower, upper =>
    let tau := (upper - lower) / 2
    if tau < tol then (upper, 0)
    else
      let tea := toT (lower + tau)
      if assess tea then
        let p := bsearch_loop assess toT tol fuel lower tea
        (p.1, p.2 + 1)
      else
        let p := bsearch_loop assess toT tol fuel tea upper
        (p.1, p.2 + 1)

/-- `bsearch(omega, intrvl, options)`. -/
noncomputable def bsearch (assess : ℝ → Bool) (toT : ℝ → ℝ) (intrvl : ℝ × ℝ)
    (opts : Options) : ℝ × ℕ :=
  bsearch_loop assess toT opts.tol opts.max_iters intrvl.1 intrvl.2

/-- State of `BSearchAdaptor`: the oracle, the outer search space and the
options. -/
structure BSearchAdaptor (O S : Type) where
  omega : O
  space : S
  options : Options

/-- `BSearchAdaptor.assess_bs(tea)`: updates the oracle's parameter, runs
`cutting_plane_feas` on a deep copy of the search space (in the
value-passing model the copy is simply the current value `ad.space`,
whose inner mutations are discarded), and on feasibility writes the found
point back with `set_xc`. -/
noncomputable def BSearchAdaptor.assess_bs {O S V C : Type}
    (oops : OracleFeas2Ops O V C) (sp : SearchSpace2Ops S V C)
    (ad : BSearchAdaptor O S) (tea : ℝ) : Bool × BSearchAdaptor O S :=
  let space := ad.space
  let omega' := oops.update ad.omega tea
  let r := cutting_plane_feas (oops.assess_feas omega') sp.toSearchSpaceOps ad.options space
  match r.1 with
  | some x => (true, { ad with omega := omega', space := sp.set_xc ad.space x })
  | none => (false, { ad with omega := omega' })

/-- Left folds preserve any invariant preserved by each step. -/
lemma list_foldl_invariant {α β : Type*} (P : β → Prop) (f : β → α → β)
    (hstep : ∀ s a, P s → P (f s a)) :
    ∀ (l : List α) (s : β), P s → P (l.foldl f s) := by
  intro l
  induction l with
  | nil => intro s hs; exact hs
  | cons a l ih => intro s hs; exact ih (f s a) (hstep s a hs)

/-- Square roots of the concrete perfect squares used by the concrete
scenarios. -/
lemma sqrt_four : Real.sqrt 4 = 2 := by
  rw [show (4 : ℝ) = 2 ^ 2 by norm_num, Real.sqrt_sq (by norm_num : (0:ℝ) ≤ 2)]

lemma sqrt_nine : Real.sqrt 9 = 3 := by
  rw [show (9 : ℝ) = 3 ^ 2 by norm_num, Real.sqrt_sq (by norm_num : (0:ℝ) ≤ 3)]

lemma sqrt_sixtyfour : Real.sqrt 64 = 8 := by
  rw [show (64 : ℝ) = 8 ^ 2 by norm_num, Real.sqrt_sq (by norm_num : (0:ℝ) ≤ 8)]


/-! ## Helper lemmas for the driver-loop theorems -/

/-- The iteration count returned by the feasibility loop never exceeds the
fuel. -/
lemma feas_loop_count_le {S V C : Type} (assess : V → Option C) (sp : SearchSpaceOps S V C)
    (tol : ℝ) : ∀ (fuel : ℕ) (s : S),
    (cutting_plane_feas_loop assess sp tol fuel s).2 ≤ fuel := by
  intro fuel
  induction fuel with
  | zero =>
    intro s
    simp [cutting_plane_feas_loop]
  | succ fuel ih =>
    intro s
    simp only [cutting_plane_feas_loop]
    cases h : assess (sp.xc s) with
    | none => simp
    | some cut =>
      dsimp only
      by_cases hc : (sp.update_dc s cut).1 ≠ CutStatus.Success ∨
          sp.tsq (sp.update_dc s cut).2 < tol
      · rw [if_pos hc]
        simp
      · rw [if_neg hc]
        simpa using Nat.succ_le_succ (ih _)

/-- When the oracle certifies feasibility at the k-th state (and no
earlier exit happened), the loop returns that center and k. -/
lemma feas_loop_found {S V C : Type} (assess : V → Option C) (sp : SearchSpaceOps S V C)
    (tol : ℝ) : ∀ (k fuel : ℕ) (s : S), k < fuel →
    (∀ i < k, ¬feasFound assess sp ((feasStep assess sp)^[i] s) ∧
      ¬feasHalt assess sp tol ((feasStep assess sp)^[i] s)) →
    feasFound assess sp ((feasStep assess sp)^[k] s) →
    cutting_plane_feas_loop assess sp tol fuel s =
      (some (sp.xc ((feasStep assess sp)^[k] s)), k) := by
  intro k
  induction k with
  | zero =>
    intro fuel s hk _ hfound
    rw [Function.iterate_zero_apply] at hfound ⊢
    cases fuel with
    | zero => omega
    | succ m =>
      simp only [cutting_plane_feas_loop]
      rw [hfound]
  | succ k ih =>
    intro fuel s hk hprog hfound
    cases fuel with
    | zero => omega
    | succ m =>
      obtain ⟨hnf, hnh⟩ := hprog 0 (Nat.succ_pos k)
      rw [Function.iterate_zero_apply] at hnf hnh
      cases hc : assess (sp.xc s) with
      | none => exact absurd hc hnf
      | some cut =>
        have hnc : ¬ ((sp.update_dc s cut).1 ≠ CutStatus.Success ∨
            sp.tsq (sp.update_dc s cut).2 < tol) := by
          intro hcond
          exact hnh ⟨cut, hc, hcond⟩
        have hstep : feasStep assess sp s = (sp.update_dc s cut).2 := by
          simp [feasStep, hc]
        simp only [cutting_plane_feas_loop]
        rw [hc]
        dsimp only
        rw [if_neg hnc, ← hstep]
        have ihres := ih m (feasStep assess sp s) (by omega)
          (by
            intro i hi
            rw [← Function.iterate_succ_apply]
            exact hprog (i + 1) (by omega))
          (by
            rw [← Function.iterate_succ_apply]
            exact hfound)
        rw [ihres, ← Function.iterate_succ_apply]

/-- When the update fails (or the tolerance is hit) at the k-th state (and
no earlier exit happened), the loop returns `None` and k. -/
lemma feas_loop_halt {S V C : Type} (assess : V → Option C) (sp : SearchSpaceOps S V C)
    (tol : ℝ) : ∀ (k fuel : ℕ) (s : S), k < fuel →
    (∀ i < k, ¬feasFound assess sp ((feasStep assess sp)^[i] s) ∧
      ¬feasHalt assess sp tol ((feasStep assess sp)^[i] s)) →
    feasHalt assess sp tol ((feasStep assess sp)^[k] s) →
    cutting_plane_feas_loop assess sp tol fuel s = (none, k) := by
  intro k
  induction k with
  | zero =>
    intro fuel s hk _ hhalt
    rw [Function.iterate_zero_apply] at hhalt
    obtain ⟨cut, hc, hcond⟩ := hhalt
    cases fuel with
    | zero => omega
    | succ m =>
      simp only [cutting_plane_feas_loop]
      rw [hc]
      dsimp only
      rw [if_pos hcond]
  | succ k ih =>
    intro fuel s hk hprog hhalt
    cases fuel with
    | zero => omega
    | succ m =>
      obtain ⟨hnf, hnh⟩ := hprog 0 (Nat.succ_pos k)
      rw [Function.iterate_zero_apply] at hnf hnh
      cases hc : assess (sp.xc s) with
      | none => exact absurd hc hnf
      | some cut =>
        have hnc : ¬ ((sp.update_dc s cut).1 ≠ CutStatus.Success ∨
            sp.tsq (sp.update_dc s cut).2 < tol) := by
          intro hcond
          exact hnh ⟨cut, hc, hcond⟩
        have hstep : feasStep assess sp s = (sp.update_dc s cut).2 := by
          simp [feasStep, hc]
        simp only [cutting_plane_feas_loop]
        rw [hc]
        dsimp only
        rw [if_neg hnc, ← hstep]
        have ihres := ih m (feasStep assess sp s) (by omega)
          (by
            intro i hi
            rw [← Function.iterate_succ_apply]
            exact hprog (i + 1) (by omega))
          (by
            rw [← Function.iterate_succ_apply]
            exact hhalt)
        rw [ihres]

/-- When no exit condition occurs within the budget, the loop returns
`None` and the full budget. -/
lemma feas_loop_exhaust {S V C : Type} (assess : V → Option C) (sp : SearchSpaceOps S V C)
    (tol : ℝ) : ∀ (fuel : ℕ) (s : S),
    (∀ i < fuel, ¬feasFound assess sp ((feasStep assess sp)^[i] s) ∧
      ¬feasHalt assess sp tol ((feasStep assess sp)^[i] s)) →
    cutting_plane_feas_loop assess sp tol fuel s = (none, fuel) := by
  intro fuel
  induction fuel with
  | zero =>
    intro s _
    rfl
  | succ m ih =>
    intro s hprog
    obtain ⟨hnf, hnh⟩ := hprog 0 (Nat.succ_pos m)
    rw [Function.iterate_zero_apply] at hnf hnh
    cases hc : assess (sp.xc s) with
    | none => exact absurd hc hnf
    | some cut =>
      have hnc : ¬ ((sp.update_dc s cut).1 ≠ CutStatus.Success ∨
          sp.tsq (sp.update_dc s cut).2 < tol) := by
        intro hcond
        exact hnh ⟨cut, hc, hcond⟩
      have hstep : feasStep assess sp s = (sp.update_dc s cut).2 := by
        simp [feasStep, hc]
      simp only [cutting_plane_feas_loop]
      rw [hc]
      dsimp only
      rw [if_neg hnc, ← hstep]
      have ihres := ih (feasStep assess sp s)
        (by
          intro i hi
          rw [← Function.iterate_succ_apply]
          exact hprog (i + 1) (by omega))
      rw [ihres]

/-- The `bsearch` loop returns either the incoming upper bound or a probe
accepted by the oracle. -/
lemma bsearch_loop_inv (assess : ℝ → Bool) (toT : ℝ → ℝ) (tol : ℝ) :
    ∀ (fuel : ℕ) (lower upper : ℝ),
      (bsearch_loop assess toT tol fuel lower upper).1 = upper ∨
      assess ((bsearch_loop assess toT tol fuel lower upper).1) = true := by
  intro fuel
  induction fuel with
  | zero => intro lower upper; left; rfl
  | succ fuel ih =>
    intro lower upper
    simp only [bsearch_loop]
    by_cases h1 : (upper - lower) / 2 < tol
    · rw [if_pos h1]
      left
      rfl
    · rw [if_neg h1]
      by_cases h2 : assess (toT (lower + (upper - lower) / 2)) = true
      · rw [if_pos h2]
        rcases ih lower (toT (lower + (upper - lower) / 2)) with h | h
        · right
          simpa [h] using h2
        · right
          exact h
      · rw [if_neg h2]
        rcases ih (toT (lower + (upper - lower) / 2)) upper with h | h
        · left
          exact h
        · right
          exact h

/-! ## Helper lemmas for the state-update theorems -/

/-- On a non-`Success` status, `Ell._update_core` leaves `xc`, `mq` and
`kappa` untouched but has already overwritten `tsq` with the freshly
computed `kappa * g·(M·g)`. -/
lemma ell_update_core_frame {n : ℕ} (E : Ell n) (cut : (Fin n → ℝ) × CutChoice)
    (strategy : CutChoice → ℝ → CalcResult)
    (h : (E.update_core cut strategy).1 ≠ CutStatus.Success) :
    (E.update_core cut strategy).2.xc = E.xc ∧
    (E.update_core cut strategy).2.mq = E.mq ∧
    (E.update_core cut strategy).2.kappa = E.kappa ∧
    (E.update_core cut strategy).2.tsq =
      E.kappa * Matrix.dotProduct cut.1 (E.mq.mulVec cut.1) := by
  simp only [Ell.update_core] at h ⊢
  by_cases hs : (strategy cut.2
      (E.kappa * Matrix.dotProduct cut.1 (E.mq.mulVec cut.1))).1 ≠ CutStatus.Success
  · rw [if_pos hs]
    exact ⟨rfl, rfl, rfl, rfl⟩
  · rw [if_neg hs] at h
    cases hnd : E.no_defer_trick <;> simp [hnd] at h <;> exact absurd h hs

/-- The forward solve of `EllStable` writes only the strict upper triangle:
the diagonal and the lower triangle of the array are untouched. -/
lemma stableForward_lower (n : ℕ) (m : ℕ → ℕ → ℝ) (g : ℕ → ℝ) :
    ∀ a b, b ≤ a → (stableForward n m g).1 a b = m a b := by
  unfold stableForward
  refine list_foldl_invariant
    (fun st : (ℕ → ℕ → ℝ) × (ℕ → ℝ) => ∀ a b, b ≤ a → st.1 a b = m a b)
    _ ?_ (List.range n) (m, g) (fun a b _ => rfl)
  intro st j hst
  refine list_foldl_invariant
    (fun st : (ℕ → ℕ → ℝ) × (ℕ → ℝ) => ∀ a b, b ≤ a → st.1 a b = m a b)
    _ ?_ (List.range n) st hst
  intro st2 i hst2
  by_cases hji : j < i
  · rw [if_pos hji]
    intro a b hba
    simp only [mset]
    rw [if_neg ?_]
    · exact hst2 a b hba
    · rintro ⟨rfl, rfl⟩
      omega
  · rw [if_neg hji]
    exact hst2

/-- On a non-`Success` status, `EllStable._update_core` leaves `xc`,
`kappa` and the diagonal-and-lower part of the array untouched; `tsq` is
overwritten and the scratch upper triangle has been written by the
forward solve. -/
lemma ellstable_update_core_frame (E : EllStable) (cut : (ℕ → ℝ) × CutChoice)
    (strategy : CutChoice → ℝ → CalcResult)
    (h : (E.update_core cut strategy).1 ≠ CutStatus.Success) :
    (E.update_core cut strategy).2.xc = E.xc ∧
    (E.update_core cut strategy).2.kappa = E.kappa ∧
    (∀ a b, b ≤ a → (E.update_core cut strategy).2.mq a b = E.mq a b) ∧
    (E.update_core cut strategy).2.tsq = E.kappa * stableOmega E.ndim E.mq cut.1 := by
  simp only [EllStable.update_core, stableOmega] at h ⊢
  by_cases hs : (strategy cut.2 (E.kappa * Finset.sum (Finset.range E.ndim)
      (fun i => (stableForward E.ndim E.mq cut.1).2 i *
        ((stableForward E.ndim E.mq cut.1).2 i *
          (stableForward E.ndim E.mq cut.1).1 i i)))).1 ≠ CutStatus.Success
  · rw [if_pos hs]
    exact ⟨rfl, rfl, fun a b hba => stableForward_lower E.ndim E.mq cut.1 a b hba, rfl⟩
  · rw [if_neg hs] at h
    cases hnd : E.no_defer_trick <;> simp [hnd] at h <;> exact absurd h hs

/-! ## Claim theorems -/

/-- Claim C1, counterexample: at dimension n = 3, `calc_ll(1, 1, 4)` does
not agree with `calc_dc(1, 4)` — the degenerate parallel cut collapses
the slab (rho = 1, sigma = 1) while the deep cut gives rho = 5/4 — so the
claimed identity `calc_ll(beta, beta, tsq) = calc_dc(beta, tsq)` fails
for tsq > beta². -/
theorem calc_ll_degenerate_cx :
    EllCalc.calc_ll (EllCalc.ofDim 3) 1 1 4 ≠ EllCalc.calc_dc (EllCalc.ofDim 3) 1 4 := by
  have h1 : (EllCalc.calc_ll (EllCalc.ofDim 3) 1 1 4).2.1 = 1 := by
    norm_num [EllCalc.calc_ll, EllCalc.calc_ll_core, EllCalc.cst0, EllCalc.cst2,
      EllCalc.cst3, EllCalc.half_n, EllCalc.ofDim, sqrt_nine]
  have h2 : (EllCalc.calc_dc (EllCalc.ofDim 3) 1 4).2.1 = 5 / 4 := by
    norm_num [EllCalc.calc_dc, EllCalc.calc_dc_core, EllCalc.cst0, EllCalc.ofDim, sqrt_four]
  intro h
  rw [h, h2] at h1
  norm_num at h1

/-- Claim C1, amended: for every dimension n ≥ 2, beta > 0 and
0 < tsq ≤ beta², `calc_ll(beta, beta, tsq)` returns the same
(status, rho, sigma, delta) as `calc_dc(beta, tsq)`; for tsq > beta² the
two calls differ. -/
theorem calc_ll_degenerate (n : ℕ) (hn : 2 ≤ n) (beta tsq : ℝ) (hb : 0 < beta)
    (ht : 0 < tsq) (hle : tsq ≤ beta * beta) :
    EllCalc.calc_ll (EllCalc.ofDim n) beta beta tsq
      = EllCalc.calc_dc (EllCalc.ofDim n) beta tsq := by
  rcases lt_or_eq_of_le hle with hlt | heq
  · simp only [EllCalc.calc_ll]
    rw [if_neg (lt_irrefl beta), if_pos ⟨hb, hlt⟩]
  · subst heq
    have hb' : beta ≠ 0 := ne_of_gt hb
    have hs : Real.sqrt (beta * beta) = beta := Real.sqrt_mul_self hb.le
    have hn' : (2:ℝ) ≤ (n:ℝ) := by exact_mod_cast hn
    have hn1 : (n:ℝ) + 1 ≠ 0 := by nlinarith
    simp only [EllCalc.calc_ll, EllCalc.calc_ll_core, EllCalc.calc_dc, EllCalc.calc_dc_core,
      EllCalc.cst0, EllCalc.cst1, EllCalc.cst2, EllCalc.cst3, EllCalc.half_n, EllCalc.ofDim]
    rw [if_neg (lt_irrefl beta), if_neg (fun h => lt_irrefl _ h.2),
      if_neg (lt_irrefl (beta * beta)), hs]
    have hxi : (beta * beta - beta * beta) * (beta * beta - beta * beta)
        + ((n:ℝ) / 2 * (beta * beta - beta * beta)) ^ 2 = 0 := by ring
    rw [hxi, Real.sqrt_zero]
    simp only [Prod.mk.injEq, true_and]
    refine ⟨?_, ?_, ?_⟩
    · field_simp
      ring
    · field_simp
      ring
    · field_simp

/-- Claim C1, witness for the amended theorem at n = 2, beta = 1,
tsq = 1. -/
theorem calc_ll_degenerate_witness :
    EllCalc.calc_ll (EllCalc.ofDim 2) 1 1 1 = EllCalc.calc_dc (EllCalc.ofDim 2) 1 1 :=
  calc_ll_degenerate 2 (by norm_num) 1 1 (by norm_num) (by norm_num) (by norm_num)

/-- Claim C2: for every dimension n ≥ 2, beta ≥ 0 and tsq > 0, `calc_dc`
returns `(NoSoln, 0, 0, 0)` when tsq < beta², and otherwise `Success`
with rho = gamma/(n+1), sigma = 2·gamma/((n+1)(tau+beta)) and
delta = (n²/(n²−1))·(1 − (beta/tau)²), where tau = sqrt(tsq) and
gamma = tau + n·beta. -/
theorem calc_dc_spec (n : ℕ) (hn : 2 ≤ n) (beta tsq : ℝ) (hb : 0 ≤ beta) (ht : 0 < tsq) :
    (tsq < beta ^ 2 → EllCalc.calc_dc (EllCalc.ofDim n) beta tsq = (CutStatus.NoSoln, 0, 0, 0)) ∧
    (beta ^ 2 ≤ tsq →
      EllCalc.calc_dc (EllCalc.ofDim n) beta tsq =
        (CutStatus.Success,
          (Real.sqrt tsq + n * beta) / (n + 1),
          2 * (Real.sqrt tsq + n * beta) / ((n + 1) * (Real.sqrt tsq + beta)),
          ((n : ℝ) ^ 2 / ((n : ℝ) ^ 2 - 1)) * (1 - (beta / Real.sqrt tsq) ^ 2))) := by
  constructor
  · intro h
    simp only [EllCalc.calc_dc]
    rw [if_pos (by nlinarith : tsq < beta * beta)]
  · intro h
    simp only [EllCalc.calc_dc, EllCalc.calc_dc_core, EllCalc.cst0, EllCalc.cst1,
      EllCalc.cst2, EllCalc.ofDim]
    rw [if_neg (by push_neg; nlinarith : ¬ tsq < beta * beta)]
    simp only [Prod.mk.injEq, true_and]
    refine ⟨by ring, ?_, trivial⟩
    rw [← div_div]
    ring

/-- Claim C2, witness: the spec scenario S1 at n = 3, `calc_dc(1, 4)` =
`(Success, 5/4, 5/6, 27/32)`. -/
theorem calc_dc_spec_witness :
    EllCalc.calc_dc (EllCalc.ofDim 3) 1 4 = (CutStatus.Success, 5 / 4, 5 / 6, 27 / 32) := by
  have h := (calc_dc_spec 3 (by norm_num) 1 4 (by norm_num) (by norm_num)).2 (by norm_num)
  rw [h]
  norm_num [sqrt_four]

/-- Claim C3, counterexample: a `NoSoln` update of `Ell` (dimension 2,
kappa = 1, identity shape, cut `(e0, single 2)`, previous stored tsq = 0)
returns the non-`Success` status but changes the stored `tsq` to 1, so
the state is not unchanged as the claim asserts. -/
theorem update_tsq_changed_cx :
    ((⟨1, fun _ => 0, 1, 0, EllCalc.ofDim 2, false⟩ : Ell 2).update_dc
      (![1, 0], CutChoice.single 2)).1 = CutStatus.NoSoln ∧
    ((⟨1, fun _ => 0, 1, 0, EllCalc.ofDim 2, false⟩ : Ell 2).update_dc
      (![1, 0], CutChoice.single 2)).2.tsq ≠
      (⟨1, fun _ => 0, 1, 0, EllCalc.ofDim 2, false⟩ : Ell 2).tsq := by
  constructor
  · norm_num [Ell.update_dc, Ell.update_core, EllCalc.calc_single_or_ll, EllCalc.calc_dc,
      Matrix.one_mulVec, Matrix.dotProduct, Fin.sum_univ_two, Matrix.cons_val_zero,
      Matrix.cons_val_one, Matrix.head_cons]
    rw [if_neg (by decide : ¬(CutStatus.NoSoln = CutStatus.Success))]
  · norm_num [Ell.update_dc, Ell.update_core, EllCalc.calc_single_or_ll, EllCalc.calc_dc,
      Matrix.one_mulVec, Matrix.dotProduct, Fin.sum_univ_two, Matrix.cons_val_zero,
      Matrix.cons_val_one, Matrix.head_cons]
    rw [if_neg (by decide : ¬(CutStatus.NoSoln = CutStatus.Success))]
    norm_num

/-- Claim C3, amended: whenever the kernel dispatcher returns a status
other than `Success` inside `Ell.update_dc` / `update_cc` / `update_q` or
their `EllStable` counterparts, the method returns that status and leaves
`xc`, `kappa` and the shape data (the matrix of `Ell`; the diagonal and
lower triangle of `EllStable`, whose strict upper triangle is scratch)
unchanged, but the stored `tsq` has already been overwritten with the
freshly computed `kappa · gᵀMg` for this cut. -/
theorem update_frame_nonsuccess :
    (∀ (n : ℕ) (E : Ell n) (cut : (Fin n → ℝ) × CutChoice),
      (E.update_dc cut).1 ≠ CutStatus.Success →
      (E.update_dc cut).2.xc = E.xc ∧ (E.update_dc cut).2.mq = E.mq ∧
      (E.update_dc cut).2.kappa = E.kappa ∧
      (E.update_dc cut).2.tsq = E.kappa * Matrix.dotProduct cut.1 (E.mq.mulVec cut.1)) ∧
    (∀ (n : ℕ) (E : Ell n) (cut : (Fin n → ℝ) × CutChoice),
      (E.update_cc cut).1 ≠ CutStatus.Success →
      (E.update_cc cut).2.xc = E.xc ∧ (E.update_cc cut).2.mq = E.mq ∧
      (E.update_cc cut).2.kappa = E.kappa ∧
      (E.update_cc cut).2.tsq = E.kappa * Matrix.dotProduct cut.1 (E.mq.mulVec cut.1)) ∧
    (∀ (n : ℕ) (E : Ell n) (cut : (Fin n → ℝ) × CutChoice),
      (E.update_q cut).1 ≠ CutStatus.Success →
      (E.update_q cut).2.xc = E.xc ∧ (E.update_q cut).2.mq = E.mq ∧
      (E.update_q cut).2.kappa = E.kappa ∧
      (E.update_q cut).2.tsq = E.kappa * Matrix.dotProduct cut.1 (E.mq.mulVec cut.1)) ∧
    (∀ (E : EllStable) (cut : (ℕ → ℝ) × CutChoice),
      (E.update_dc cut).1 ≠ CutStatus.Success →
      (E.update_dc cut).2.xc = E.xc ∧ (E.update_dc cut).2.kappa = E.kappa ∧
      (∀ a b, b ≤ a → (E.update_dc cut).2.mq a b = E.mq a b) ∧
      (E.update_dc cut).2.tsq = E.kappa * stableOmega E.ndim E.mq cut.1) ∧
    (∀ (E : EllStable) (cut : (ℕ → ℝ) × CutChoice),
      (E.update_cc cut).1 ≠ CutStatus.Success →
      (E.update_cc cut).2.xc = E.xc ∧ (E.update_cc cut).2.kappa = E.kappa ∧
      (∀ a b, b ≤ a → (E.update_cc cut).2.mq a b = E.mq a b) ∧
      (E.update_cc cut).2.tsq = E.kappa * stableOmega E.ndim E.mq cut.1) ∧
    (∀ (E : EllStable) (cut : (ℕ → ℝ) × CutChoice),
      (E.update_q cut).1 ≠ CutStatus.Success →
      (E.update_q cut).2.xc = E.xc ∧ (E.update_q cut).2.kappa = E.kappa ∧
      (∀ a b, b ≤ a → (E.update_q cut).2.mq a b = E.mq a b) ∧
      (E.update_q cut).2.tsq = E.kappa * stableOmega E.ndim E.mq cut.1) := by
  refine ⟨?_, ?_, ?_, ?_, ?_, ?_⟩
  · intro n E cut h
    exact ell_update_core_frame E cut _ h
  · intro n E cut h
    exact ell_update_core_frame E cut _ h
  · intro n E cut h
    exact ell_update_core_frame E cut _ h
  · intro E cut h
    exact ellstable_update_core_frame E cut _ h
  · intro E cut h
    exact ellstable_update_core_frame E cut _ h
  · intro E cut h
    exact ellstable_update_core_frame E cut _ h

/-- Claim C3, witness for the amended theorem: the same `NoSoln` update of
`Ell` leaves `kappa` at its old value 1. -/
theorem update_frame_nonsuccess_witness :
    ((⟨1, fun _ => 0, 1, 0, EllCalc.ofDim 2, false⟩ : Ell 2).update_dc
      (![1, 0], CutChoice.single 2)).2.kappa = 1 := by
  have hstat : ((⟨1, fun _ => 0, 1, 0, EllCalc.ofDim 2, false⟩ : Ell 2).update_dc
      (![1, 0], CutChoice.single 2)).1 = CutStatus.NoSoln := by
    norm_num [Ell.update_dc, Ell.update_core, EllCalc.calc_single_or_ll, EllCalc.calc_dc,
      Matrix.one_mulVec, Matrix.dotProduct, Fin.sum_univ_two, Matrix.cons_val_zero,
      Matrix.cons_val_one, Matrix.head_cons]
    rw [if_neg (by decide : ¬(CutStatus.NoSoln = CutStatus.Success))]
  have hns : ((⟨1, fun _ => 0, 1, 0, EllCalc.ofDim 2, false⟩ : Ell 2).update_dc
      (![1, 0], CutChoice.single 2)).1 ≠ CutStatus.Success := by
    rw [hstat]
    decide
  have h := (update_frame_nonsuccess.1 2
    (⟨1, fun _ => 0, 1, 0, EllCalc.ofDim 2, false⟩ : Ell 2)
    (![1, 0], CutChoice.single 2) hns).2.2.1
  simpa using h

/-- Claim C4: for every oracle, search space and options,
`cutting_plane_feas` returns `(Some xc, k)` at the first iteration k at
which the oracle certifies feasibility, `(None, k)` at the first
iteration at which the update status is not `Success` or the post-update
tsq falls below the tolerance, and `(None, max_iters)` when neither
occurs within the budget; the returned iteration count never exceeds
`max_iters`. -/
theorem cutting_plane_feas_spec {S V C : Type} (assess : V → Option C)
    (sp : SearchSpaceOps S V C) (opts : Options) (s : S) :
    (cutting_plane_feas assess sp opts s).2 ≤ opts.max_iters ∧
    (∀ k < opts.max_iters,
      (∀ i < k, ¬feasFound assess sp ((feasStep assess sp)^[i] s) ∧
        ¬feasHalt assess sp opts.tol ((feasStep assess sp)^[i] s)) →
      feasFound assess sp ((feasStep assess sp)^[k] s) →
      cutting_plane_feas assess sp opts s =
        (some (sp.xc ((feasStep assess sp)^[k] s)), k)) ∧
    (∀ k < opts.max_iters,
      (∀ i < k, ¬feasFound assess sp ((feasStep assess sp)^[i] s) ∧
        ¬feasHalt assess sp opts.tol ((feasStep assess sp)^[i] s)) →
      feasHalt assess sp opts.tol ((feasStep assess sp)^[k] s) →
      cutting_plane_feas assess sp opts s = (none, k)) ∧
    ((∀ i < opts.max_iters, ¬feasFound assess sp ((feasStep assess sp)^[i] s) ∧
        ¬feasHalt assess sp opts.tol ((feasStep assess sp)^[i] s)) →
      cutting_plane_feas assess sp opts s = (none, opts.max_iters)) := by
  refine ⟨feas_loop_count_le assess sp opts.tol opts.max_iters s, ?_, ?_, ?_⟩
  · intro k hk hprog hfound
    exact feas_loop_found assess sp opts.tol k opts.max_iters s hk hprog hfound
  · intro k hk hprog hhalt
    exact feas_loop_halt assess sp opts.tol k opts.max_iters s hk hprog hhalt
  · intro hprog
    exact feas_loop_exhaust assess sp opts.tol opts.max_iters s hprog

/-- Claim C4, witness: with an oracle that certifies feasibility at once,
the loop exits at iteration 0 with the initial center. -/
theorem cutting_plane_feas_spec_witness :
    cutting_plane_feas (fun _ => none)
      (⟨id, fun _ => 1, fun s _ => (CutStatus.Success, s)⟩ : SearchSpaceOps ℝ ℝ Unit)
      ⟨5, 1⟩ (3:ℝ) = (some 3, 0) := by
  have h := (cutting_plane_feas_spec (fun _ => none)
      (⟨id, fun _ => 1, fun s _ => (CutStatus.Success, s)⟩ : SearchSpaceOps ℝ ℝ Unit)
      ⟨5, 1⟩ 3).2.1 0 (by norm_num)
      (by intro i hi; exact absurd hi (Nat.not_lt_zero i)) rfl
  simpa using h

/-- Claim C5: when `BSearchAdaptor.assess_bs` returns `false`, the
adaptor's search space is unchanged — in particular its center `xc` after
the probe equals its center before it (the inner `cutting_plane_feas`
runs only on a copy of the search space). -/
theorem assess_bs_isolation {O S V C : Type} (oops : OracleFeas2Ops O V C)
    (sp : SearchSpace2Ops S V C) (ad : BSearchAdaptor O S) (tea : ℝ)
    (h : (BSearchAdaptor.assess_bs oops sp ad tea).1 = false) :
    sp.xc ((BSearchAdaptor.assess_bs oops sp ad tea).2.space) = sp.xc ad.space := by
  cases hr : (cutting_plane_feas (oops.assess_feas (oops.update ad.omega tea))
      sp.toSearchSpaceOps ad.options ad.space).1 with
  | none => simp [BSearchAdaptor.assess_bs, hr]
  | some x => simp [BSearchAdaptor.assess_bs, hr] at h

/-- Claim C5, witness: a probe rejected because the inner loop hits
`NoSoln` immediately returns `false` and leaves the outer center (7)
unchanged. -/
theorem assess_bs_isolation_witness :
    (BSearchAdaptor.assess_bs (⟨fun _ _ => some (), fun o _ => o⟩ : OracleFeas2Ops Unit ℝ Unit)
      (⟨⟨id, fun _ => 1, fun s _ => (CutStatus.NoSoln, s)⟩, fun _ x => x⟩ :
        SearchSpace2Ops ℝ ℝ Unit)
      (⟨(), 7, ⟨5, 1⟩⟩ : BSearchAdaptor Unit ℝ) 0).1 = false ∧
    (⟨⟨id, fun _ => 1, fun s _ => (CutStatus.NoSoln, s)⟩, fun _ x => x⟩ :
        SearchSpace2Ops ℝ ℝ Unit).xc
      ((BSearchAdaptor.assess_bs (⟨fun _ _ => some (), fun o _ => o⟩ : OracleFeas2Ops Unit ℝ Unit)
        (⟨⟨id, fun _ => 1, fun s _ => (CutStatus.NoSoln, s)⟩, fun _ x => x⟩ :
          SearchSpace2Ops ℝ ℝ Unit)
        (⟨(), 7, ⟨5, 1⟩⟩ : BSearchAdaptor Unit ℝ) 0).2.space) = 7 := by
  have hfalse : (BSearchAdaptor.assess_bs
      (⟨fun _ _ => some (), fun o _ => o⟩ : OracleFeas2Ops Unit ℝ Unit)
      (⟨⟨id, fun _ => 1, fun s _ => (CutStatus.NoSoln, s)⟩, fun _ x => x⟩ :
        SearchSpace2Ops ℝ ℝ Unit)
      (⟨(), 7, ⟨5, 1⟩⟩ : BSearchAdaptor Unit ℝ) 0).1 = false := by
    simp [BSearchAdaptor.assess_bs, cutting_plane_feas, cutting_plane_feas_loop]
  exact ⟨hfalse, assess_bs_isolation _ _ _ _ hfalse⟩

/-- Claim C6: whenever `calc_dc` and `calc_dc_q` both return `Success`
(for tsq ≥ 0), the two calls return identical quadruples — the discrete
variant differs from the continuous one only in its boundary statuses. -/
theorem calc_dc_q_agrees (c : EllCalc) (beta tsq : ℝ) (ht : 0 ≤ tsq)
    (h1 : (c.calc_dc beta tsq).1 = CutStatus.Success)
    (h2 : (c.calc_dc_q beta tsq).1 = CutStatus.Success) :
    c.calc_dc beta tsq = c.calc_dc_q beta tsq := by
  simp only [EllCalc.calc_dc, EllCalc.calc_dc_q] at h1 h2 ⊢
  by_cases hA : tsq < beta * beta
  · rw [if_pos hA] at h1
    simp at h1
  · rw [if_neg hA] at h1 ⊢
    by_cases hB : Real.sqrt tsq < beta
    · rw [if_pos hB] at h2
      simp at h2
    · rw [if_neg hB] at h2 ⊢
      by_cases hC : Real.sqrt tsq + c.n_f * beta ≤ 0
      · rw [if_pos hC] at h2
        simp at h2
      · rw [if_neg hC]

/-- Claim C6, witness at n = 3, beta = 1, tsq = 4: both succeed and
agree. -/
theorem calc_dc_q_agrees_witness :
    EllCalc.calc_dc (EllCalc.ofDim 3) 1 4 = EllCalc.calc_dc_q (EllCalc.ofDim 3) 1 4 := by
  refine calc_dc_q_agrees _ 1 4 (by norm_num) ?_ ?_
  · simp only [EllCalc.calc_dc, EllCalc.calc_dc_core]
    rw [if_neg (by norm_num)]
  · simp only [EllCalc.calc_dc_q, EllCalc.calc_dc_core]
    rw [if_neg (by rw [sqrt_four]; norm_num),
      if_neg (by rw [sqrt_four]; norm_num [EllCalc.ofDim])]

/-- Claim C7, counterexample: at n = 2 the parallel cut
`calc_ll(1, 1, 9)` succeeds with delta = 16/9, which is not below
n²/(n²−1) = 4/3, refuting the claim that delta < n²/(n²−1) holds for
every `Success` update with positive beta. -/
theorem ll_delta_cx :
    (EllCalc.calc_ll (EllCalc.ofDim 2) 1 1 9).1 = CutStatus.Success ∧
    ¬ ((EllCalc.calc_ll (EllCalc.ofDim 2) 1 1 9).2.2.2 < (EllCalc.ofDim 2).cst1) := by
  have h : EllCalc.calc_ll (EllCalc.ofDim 2) 1 1 9 = (CutStatus.Success, 1, 1, 16 / 9) := by
    norm_num [EllCalc.calc_ll, EllCalc.calc_ll_core, EllCalc.cst0, EllCalc.cst1, EllCalc.cst2,
      EllCalc.cst3, EllCalc.half_n, EllCalc.ofDim, sqrt_sixtyfour]
  rw [h]
  norm_num [EllCalc.cst1, EllCalc.ofDim]

/-- Claim C7, amended: for a single (scalar) deep cut with beta > 0 that
succeeds, the kernel's delta satisfies delta < n²/(n²−1), and
delta·(1−sigma)·tsq ≤ tsq — so the new tsq that an `Ell` update computes
for the same probe g (namely delta·(1−sigma) times the old one) does not
exceed the old tsq; for parallel cuts delta can reach or exceed
n²/(n²−1). -/
theorem dc_delta_bound (c : EllCalc) (hn : 2 ≤ c.n_f) (beta tsq : ℝ) (hb : 0 < beta)
    (hs : (c.calc_dc beta tsq).1 = CutStatus.Success) :
    (c.calc_dc beta tsq).2.2.2 < c.cst1 ∧
    (c.calc_dc beta tsq).2.2.2 * (1 - (c.calc_dc beta tsq).2.2.1) * tsq ≤ tsq := by
  have hA : ¬ tsq < beta * beta := by
    intro hA
    simp only [EllCalc.calc_dc] at hs
    rw [if_pos hA] at hs
    simp at hs
  have hble : beta * beta ≤ tsq := not_lt.1 hA
  have ht : 0 < tsq := lt_of_lt_of_le (mul_pos hb hb) hble
  have hτpos : 0 < Real.sqrt tsq := Real.sqrt_pos.mpr ht
  have hτsq : Real.sqrt tsq * Real.sqrt tsq = tsq := Real.mul_self_sqrt ht.le
  set τ := Real.sqrt tsq with hτdef
  have hβτ : beta ≤ τ := by nlinarith
  have hcalc : c.calc_dc beta tsq = c.calc_dc_core beta τ (τ + c.n_f * beta) := by
    simp only [EllCalc.calc_dc]
    rw [if_neg hA]
  rw [hcalc]
  simp only [EllCalc.calc_dc_core, EllCalc.cst0, EllCalc.cst1, EllCalc.cst2]
  set nf := c.n_f with hnf
  have h1 : (0:ℝ) < nf ^ 2 - 1 := by nlinarith
  have h2 : (0:ℝ) < nf + 1 := by nlinarith
  have h3 : 0 < τ + beta := by nlinarith
  constructor
  · have hfrac : 0 < (beta / τ) ^ 2 := by positivity
    have hc1 : 0 < nf ^ 2 / (nf ^ 2 - 1) := by positivity
    nlinarith [mul_pos hc1 hfrac]
  · have hkey : nf ^ 2 / (nf ^ 2 - 1) * (1 - (beta / τ) ^ 2) *
        (1 - 2 * (1 / (nf + 1)) * (τ + nf * beta) / (τ + beta))
        = nf ^ 2 * (τ - beta) ^ 2 / ((nf + 1) ^ 2 * τ ^ 2) := by
      field_simp
      ring
    have hfin : nf ^ 2 * (τ - beta) ^ 2 ≤ (nf + 1) ^ 2 * τ ^ 2 := by
      have ha : (0:ℝ) ≤ τ + nf * beta := by nlinarith
      have hb2 : (0:ℝ) ≤ (nf + 1) * τ + nf * (τ - beta) := by nlinarith
      nlinarith [mul_nonneg ha hb2]
    have hone : nf ^ 2 / (nf ^ 2 - 1) * (1 - (beta / τ) ^ 2) *
        (1 - 2 * (1 / (nf + 1)) * (τ + nf * beta) / (τ + beta)) ≤ 1 := by
      rw [hkey, div_le_one (by positivity)]
      exact hfin
    nlinarith [mul_le_mul_of_nonneg_right hone ht.le]

/-- Claim C7, witness for the amended theorem at n = 3, beta = 1,
tsq = 4. -/
theorem dc_delta_bound_witness :
    (EllCalc.calc_dc (EllCalc.ofDim 3) 1 4).2.2.2 < (EllCalc.ofDim 3).cst1 ∧
    (EllCalc.calc_dc (EllCalc.ofDim 3) 1 4).2.2.2 *
      (1 - (EllCalc.calc_dc (EllCalc.ofDim 3) 1 4).2.2.1) * 4 ≤ 4 :=
  dc_delta_bound (EllCalc.ofDim 3) (by norm_num [EllCalc.ofDim]) 1 4 (by norm_num)
    (by simp only [EllCalc.calc_dc, EllCalc.calc_dc_core]
        rw [if_neg (by norm_num)])

/-- Claim C8: violating the parallel-cut ordering (b1 < b0) makes both
`calc_ll` and `calc_ll_q` return `(NoSoln, 0, 0, 0)`. -/
theorem ll_ordering_nosoln (c : EllCalc) (b0 b1 tsq : ℝ) (h : b1 < b0) :
    c.calc_ll b0 b1 tsq = (CutStatus.NoSoln, 0, 0, 0) ∧
    c.calc_ll_q b0 b1 tsq = (CutStatus.NoSoln, 0, 0, 0) := by
  constructor
  · simp only [EllCalc.calc_ll]
    rw [if_pos h]
  · simp only [EllCalc.calc_ll_q]
    rw [if_pos h]

/-- Claim C8, witness at b0 = 1, b1 = 0. -/
theorem ll_ordering_nosoln_witness :
    EllCalc.calc_ll (EllCalc.ofDim 3) 1 0 1 = (CutStatus.NoSoln, 0, 0, 0) ∧
    EllCalc.calc_ll_q (EllCalc.ofDim 3) 1 0 1 = (CutStatus.NoSoln, 0, 0, 0) :=
  ll_ordering_nosoln _ 1 0 1 (by norm_num)

/-- Claim C9: the central-cut dispatcher ignores a scalar beta entirely:
`calc_single_or_ll_cc(beta, tsq)` equals `calc_cc(tsq)`, which always
returns `Success` with rho = sqrt(tsq)/(n+1), sigma = 2/(n+1) and
delta = n²/(n²−1); hence `Ell.update_cc` with a scalar-beta cut always
reports `Success` once the kernel is reached. -/
theorem calc_single_or_ll_cc_scalar (c : EllCalc) (beta tsq : ℝ) :
    c.calc_single_or_ll_cc (CutChoice.single beta) tsq = c.calc_cc tsq ∧
    c.calc_cc tsq = (CutStatus.Success, Real.sqrt tsq / (c.n_f + 1), 2 / (c.n_f + 1),
      c.n_f ^ 2 / (c.n_f ^ 2 - 1)) ∧
    (∀ (n : ℕ) (E : Ell n) (g : Fin n → ℝ),
      (E.update_cc (g, CutChoice.single beta)).1 = CutStatus.Success) := by
  refine ⟨rfl, ?_, ?_⟩
  · simp only [EllCalc.calc_cc, EllCalc.cst0, EllCalc.cst1, EllCalc.cst2, Prod.mk.injEq,
      true_and]
    exact ⟨by ring, by ring, trivial⟩
  · intro n E g
    simp only [Ell.update_cc, Ell.update_core, EllCalc.calc_single_or_ll_cc, EllCalc.calc_cc]
    cases E.no_defer_trick <;> simp

/-- Claim C10: for every oracle, cast, interval and options, the value
returned by `bsearch` is either the initial upper bound unchanged or a
probe the oracle accepted; a rejected probe is never returned. -/
theorem bsearch_returns_accepted (assess : ℝ → Bool) (toT : ℝ → ℝ)
    (intrvl : ℝ × ℝ) (opts : Options) :
    (bsearch assess toT intrvl opts).1 = intrvl.2 ∨
    assess ((bsearch assess toT intrvl opts).1) = true :=
  bsearch_loop_inv assess toT opts.tol opts.max_iters intrvl.1 intrvl.2

end EllAlgo
